import Mathlib

/-!
Verification of the model-gateway router `docker_model_runner.py`
(backend registry, catalog aggregation and merge, router/selection,
version reconciliation, streaming proxy cleanup, request validation,
and config update).

Each definition below is a shallow embedding of the corresponding
Python function from the source file; the comment on each definition
names the source symbol it embeds.  Network calls are abstracted by an
explicit function argument `net : Nat -> Option _` giving the response
a given backend index would return (`none` models an unreachable
backend, mirroring `send_get_request` which returns `None` on any
transport failure).
-/

/-- One entry of a backend model list, the wire objects handled by
`merge_models_lists` and `get_all_models`.  The Python code works on
JSON dicts; the fields the router reads or writes are typed here
(`model`, `urls`, `tags`, `connection_type`) and every other
backend-supplied field is carried opaquely in `data`.  The wire format
guarantees a `model` key on each entry, so the embedding makes it a
required field (the source reads it with `.get("model")` and skips
entries where it is missing). -/
structure MModel where
  model : String
  urls : List Nat := []
  tags : List String := []
  connection_type : Option String := none
  data : List (String × String) := []
deriving DecidableEq, Repr

/-- Per-backend configuration dict, as read by the router via
`api_config.get(...)` with the defaults used at each read site:
`enable` defaults to `True`, `key` to `None`, `connection_type` to
`"docker"`, `prefix_id` to `None`, `tags` to `[]`, `model_ids` to
`[]`.  An absent config dict (`{}` default) is the structure with all
default fields. -/
structure ApiConfig where
  enable : Bool := true
  key : Option String := none
  connection_type : Option String := some "docker"
  prefix_id : Option String := none
  tags : List String := []
  model_ids : List String := []
deriving DecidableEq, Repr

/-- A backend `/api/tags` (or `/api/ps`) response body: a JSON dict
with a `models` list.  A failed fetch is `none` at the use sites
(`Option RespObj`); a truthy dict without a `models` key behaves like
`models = []` (the source reads it with `response.get("models", [])`),
and a falsy `{}` response behaves like a failed fetch at every use
site, so it is also represented by `none`. -/
structure RespObj where
  models : List MModel := []
deriving DecidableEq, Repr

/-- Python `enumerate`, with explicit start index. -/
def enumerateFrom {α : Type} (i : Nat) : List α → List (Nat × α)
  | [] => []
  | a :: as => (i, a) :: enumerateFrom (i + 1) as

/-- Python `enumerate(l)`. -/
def enumerate {α : Type} (l : List α) : List (Nat × α) :=
  enumerateFrom 0 l

/-- First-match association lookup: Python `dict.get(k)` for a dict
written with distinct keys, represented as an association list. -/
def assocGet {α : Type} : List (String × α) → String → Option α
  | [], _ => none
  | kv :: rest, k => if kv.1 = k then some kv.2 else assocGet rest k

/-- Lookup in a dict built by successive insertions where a later
binding for a key overwrites an earlier one (Python dict semantics):
the last binding wins. -/
def dictLookup {α : Type} (l : List (String × α)) (k : String) : Option α :=
  assocGet l.reverse k

/-- Embeds `DOCKER_MODEL_RUNNER_API_CONFIGS.get(str(idx),
DOCKER_MODEL_RUNNER_API_CONFIGS.get(url, {}))`, the per-backend config
lookup pattern used throughout the source (lines 319-322, 339-342,
530-533, 712-715): first by decimal index string, then by base URL,
defaulting to the empty config. -/
def getApiConfig (configs : List (String × ApiConfig)) (idx : Nat) (url : String) : ApiConfig :=
  match assocGet configs (toString idx) with
  | some c => c
  | none =>
    match assocGet configs url with
    | some c => c
    | none => {}

/-- One iteration of the inner loop of `merge_models_lists` (lines
294-301): if the name is new, store the entry with `urls = [idx]`;
otherwise append `idx` to the stored entry of that name.  The
accumulator mirrors `merged_models` (a name-keyed, insertion-ordered
dict) as its value list. -/
def mergeStep (acc : List MModel) (idx : Nat) (m : MModel) : List MModel :=
  if acc.any (fun r => decide (r.model = m.model)) then
    acc.map (fun r => if r.model = m.model then { r with urls := r.urls ++ [idx] } else r)
  else
    acc ++ [{ m with urls := [idx] }]

/-- Embeds `merge_models_lists(model_lists)` (lines 290-302): iterate
the per-backend lists in registry order (a `None` slot is skipped),
merging entries by model name via `mergeStep`; the result is
`list(merged_models.values())`, i.e. records in first-seen order. -/
def merge_models_lists (model_lists : List (Option (List MModel))) : List MModel :=
  (enumerate model_lists).foldl
    (fun acc p =>
      match p.2 with
      | none => acc
      | some ms => ms.foldl (fun acc2 m => mergeStep acc2 p.1 m) acc)
    []

/-- The stream of (backend index, model entry) occurrences that
`merge_models_lists` visits, in visit order.  Used to state the merge
characterization. -/
def occList (model_lists : List (Option (List MModel))) : List (Nat × MModel) :=
  (enumerate model_lists).flatMap
    (fun p =>
      match p.2 with
      | none => []
      | some ms => ms.map (fun m => (p.1, m)))

/-- Embeds line 392-394: `{model["model"]: model for model in
models["models"]}`, the process-wide name-to-record index
(`DOCKER_MODEL_RUNNER_MODELS`); `dictLookup` gives its dict lookup
semantics. -/
def modelsIndex (ms : List MModel) : List (String × MModel) :=
  ms.map (fun m => (m.model, m))

/-- Embeds the per-response transform block of `get_all_models` (lines
344-363): filter by the allow-list `model_ids` when non-empty, then
prefix each name with `prefix_id` when truthy, overwrite `tags` when
truthy, and set `connection_type` when truthy. -/
def transformModels (cfg : ApiConfig) (ms : List MModel) : List MModel :=
  let ms := if cfg.model_ids.isEmpty then ms else ms.filter (fun m => cfg.model_ids.contains m.model)
  ms.map (fun m =>
    let m :=
      match cfg.prefix_id with
      | some p => if p ≠ "" then { m with model := p ++ "." ++ m.model } else m
      | none => m
    let m := if cfg.tags.isEmpty then m else { m with tags := cfg.tags }
    match cfg.connection_type with
    | some ct => if ct ≠ "" then { m with connection_type := some ct } else m
    | none => m)

/-- The per-backend response slots assembled by `get_all_models`
(lines 312-363): a disabled backend contributes an immediate `none`
slot (the `asyncio.sleep(0, None)` placeholder) and is never fetched;
an enabled backend contributes its (possibly failed) fetch result,
transformed by its config.  The source does the fetch loop and the
transform loop as two passes over the same `enumerate`; they are fused
here, which is sound because each slot is handled independently with
the same config lookup in both passes. -/
def tagSlots (base_urls : List String) (configs : List (String × ApiConfig))
    (net : Nat → Option RespObj) : List (Option (List MModel)) :=
  (enumerate base_urls).map (fun p =>
    let cfg := getApiConfig configs p.1 p.2
    if cfg.enable then (net p.1).map (fun r => transformModels cfg r.models) else none)

/-- Embeds `get_all_models` (lines 309-372, the merged catalog): when
the API is enabled, merge the transformed per-backend slots; otherwise
the catalog is empty.  Lines 374-387 (attaching `expires_at` from the
loaded-model listing) only annotate an extra field, never change a
record name or its `urls`, and swallow every failure; they are outside
the merge/selection behavior verified here and are omitted. -/
def get_all_models (enableApi : Bool) (base_urls : List String)
    (configs : List (String × ApiConfig)) (net : Nat → Option RespObj) : List MModel :=
  if enableApi then merge_models_lists (tagSlots base_urls configs net) else []

/-- Modelled from the spec: `ERROR_MESSAGES.MODEL_NOT_FOUND` lives in
`open_webui/constants.py`, which is not part of the source under
verification; the spec requires a NotFound error whose message names
the unknown model ("mirrors the model-not-found message"). -/
def MODEL_NOT_FOUND (name : String) : String :=
  "Model \x27" ++ name ++ "\x27 was not found"

/-- Outcome of `get_runner_url`: a resolved backend, an
`HTTPException`, or an unhandled Python exception (`IndexError` from
indexing an empty or too-short list). -/
inductive RunnerResult
  | ok (url : String) (idx : Nat)
  | httpError (status : Nat) (detail : String)
  | crash (msg : String)
deriving DecidableEq, Repr

/-- Embeds `get_runner_url(request, model, url_idx)` (lines 644-654).
`models` is the process-wide name index (`DOCKER_MODEL_RUNNER_MODELS`).
`pick` is the randomness oracle: `random.choice(seq)` is modelled as
`seq[pick % len(seq)]`, which ranges over exactly the elements of
`seq` and raises `IndexError` on an empty `seq`, like the original. -/
def get_runner_url (base_urls : List String) (models : List (String × MModel))
    (model : String) (url_idx : Option Nat) (pick : Nat) : RunnerResult :=
  match url_idx with
  | some i =>
    match base_urls.get? i with
    | some u => .ok u i
    | none => .crash "IndexError: list index out of range"
  | none =>
    match dictLookup models model with
    | none => .httpError 400 (MODEL_NOT_FOUND model)
    | some rec0 =>
      match rec0.urls.get? (pick % rec0.urls.length) with
      | none => .crash "IndexError: random.choice on empty sequence"
      | some i =>
        match base_urls.get? i with
        | some u => .ok u i
        | none => .crash "IndexError: list index out of range"

/-- Fuel-driven worker for `pyReplace`; the fuel is an upper bound on
the number of scanning steps (one per consumed character), so fuel
equal to the input length makes it total and structurally
recursive. -/
def replaceAllAux (repl pat : List Char) : Nat → List Char → List Char
  | 0, s => s
  | _, [] => []
  | fuel + 1, c :: rest =>
    if !pat.isEmpty && pat.isPrefixOf (c :: rest) then
      repl ++ replaceAllAux repl pat fuel ((c :: rest).drop pat.length)
    else
      c :: replaceAllAux repl pat fuel rest

/-- Python `s.replace(pat, repl)` for a non-empty `pat`: replace every
non-overlapping occurrence, scanning left to right.  (Python treats an
empty pattern specially; the only call site guards the pattern to be
truthy, hence non-empty.) -/
def pyReplace (s pat repl : String) : String :=
  ⟨replaceAllAux repl.data pat.data s.data.length s.data⟩

/-- Embeds lines 708-709: append the default tag when the
caller-supplied name carries no `:` separator. -/
def normalize_model_name (m : String) : String :=
  if m.data.contains ':' then m else m ++ ":latest"

/-- Outcome of the routing tail of `generate_chat_completion`: the
request is forwarded to backend `idx` with the given payload model
name, or an `HTTPException` is raised, or an unhandled exception
escapes. -/
inductive ChatRouteResult
  | forward (url : String) (idx : Nat) (model : String)
  | httpError (status : Nat) (detail : String)
  | crash (msg : String)
deriving DecidableEq, Repr

/-- Embeds the routing tail of `generate_chat_completion` (lines
708-724): normalize the payload model name, resolve the backend via
`get_runner_url`, then strip the resolved backend prefix back off with
`payload["model"].replace(f"{prefix_id}.", "")` before forwarding. -/
def chat_route (base_urls : List String) (configs : List (String × ApiConfig))
    (models : List (String × MModel)) (model0 : String) (url_idx : Option Nat)
    (pick : Nat) : ChatRouteResult :=
  let model := normalize_model_name model0
  match get_runner_url base_urls models model url_idx pick with
  | .httpError s d => .httpError s d
  | .crash m => .crash m
  | .ok url idx =>
    let cfg := getApiConfig configs idx url
    let model :=
      match cfg.prefix_id with
      | some p => if p ≠ "" then pyReplace model (p ++ ".") "" else model
      | none => model
    .forward url idx model

/-- Embeds the version-string normalization `re.sub(r"^v|-.*", "",
x["version"])` (line 550): drop one leading `v` if present, then
truncate at the first `-` (the regex alternative `-.*` consumes from
the first dash to the end of the string; `^v` can only match at the
start). -/
def stripVersionChars (s : List Char) : List Char :=
  let s1 := match s with
    | 'v' :: rest => rest
    | _ => s
  s1.takeWhile (fun c => decide (c ≠ '-'))

/-- Python `s.split(sep)` for a one-character separator: splits on
every occurrence, keeping empty pieces, and yields `[""]` on the empty
string. -/
def splitOnChar (sep : Char) : List Char → List (List Char)
  | [] => [[]]
  | c :: rest =>
    if c = sep then [] :: splitOnChar sep rest
    else
      match splitOnChar sep rest with
      | [] => [[c]]
      | h :: t => (c :: h) :: t

/-- Python `int(s)` restricted to plain decimal digit strings, the
form version components take; `none` models `int` raising
`ValueError` (empty piece or non-digit). -/
def parseDigits (s : List Char) : Option Nat :=
  if s.isEmpty then none
  else
    s.foldl
      (fun acc c =>
        match acc with
        | none => none
        | some n => if c.isDigit then some (n * 10 + (c.toNat - 48)) else none)
      (some 0)

/-- The integer component tuple of a version string: the key function
`tuple(map(int, re.sub(r"^v|-.*", "", x["version"]).split(".")))` of
line 549-551; `none` models the key function raising. -/
def versionKey (s : String) : Option (List Nat) :=
  (splitOnChar '.' (stripVersionChars s.data)).mapM parseDigits

/-- Python tuple comparison `<` on integer tuples: lexicographic, a
strict prefix is smaller. -/
def tupLt : List Nat → List Nat → Bool
  | [], [] => false
  | [], _ :: _ => true
  | _ :: _, [] => false
  | a :: as, b :: bs =>
    if a < b then true
    else if b < a then false
    else tupLt as bs

/-- Pair every response with its parsed version key; `none` when any
key function application would raise (Python `min` evaluates the key
on every element, so one bad version string aborts the whole call). -/
def keyedVersions : List String → Option (List (String × List Nat))
  | [] => some []
  | s :: rest =>
    match versionKey s, keyedVersions rest with
    | some k, some ks => some ((s, k) :: ks)
    | _, _ => none

/-- Python `min(l, key=...)` over the pre-keyed list: the first
element whose key is minimal wins (Python keeps the current minimum
and replaces it only on a strictly smaller key). -/
def pyMinByKey : List (String × List Nat) → Option (String × List Nat)
  | [] => none
  | x :: xs => some (xs.foldl (fun m y => if tupLt y.2 m.2 then y else m) x)

/-- Outcome of `get_versions`: a version payload `{"version": v}`, the
`{"version": False}` payload when the API is disabled, an
`HTTPException`, or an unhandled exception. -/
inductive VersionResult
  | version (v : String)
  | versionOff
  | httpError (status : Nat) (detail : String)
  | crash (msg : String)
deriving DecidableEq, Repr

/-- The version responses collected by the unpinned branch of
`get_versions` (lines 526-544): one task per enabled backend (disabled
backends are omitted here, not slot-aligned), then `None` results are
filtered out.  `net i` is the `{"version": ...}` payload of backend
`i`, abstracted to its version field. -/
def versionResponses (base_urls : List String) (configs : List (String × ApiConfig))
    (net : Nat → Option String) : List String :=
  (((enumerate base_urls).filter
      (fun p => (getApiConfig configs p.1 p.2).enable)).map (fun p => net p.1)).filterMap id

/-- Embeds the unpinned branch of `get_versions` (lines 524-558): with
the API enabled, gather every enabled backend version, drop `None`
responses; on a non-empty remainder return the version with the
smallest parsed integer tuple, otherwise raise the 500
"Docker Model Runner not found" HTTPException.  The pinned branch
(lines 559-580) is a direct single-backend proxy outside this
aggregation and is not embedded. -/
def get_versions_unpinned (enableApi : Bool) (base_urls : List String)
    (configs : List (String × ApiConfig)) (net : Nat → Option String) : VersionResult :=
  if enableApi then
    let responses := versionResponses base_urls configs net
    if 0 < responses.length then
      match keyedVersions responses with
      | none => .crash "ValueError: invalid literal for int()"
      | some keyed =>
        match pyMinByKey keyed with
        | some best => .version best.1
        | none => .crash "min() arg is an empty sequence"
    else .httpError 500 "Docker Model Runner not found"
  else .versionOff

/-- The observable shape of one upstream POST exchange, the input of
`send_post_request` control flow: whether `session.post` itself
raised, the response status and `r.ok`, whether `await r.json()`
succeeds, and whether the parsed body has an `"error"` field (with its
message). -/
structure UpstreamOutcome where
  postRaises : Bool := false
  status : Nat := 200
  ok : Bool := true
  bodyParses : Bool := true
  hasErrorField : Bool := false
  errorMsg : String := ""
deriving DecidableEq, Repr

/-- What `send_post_request` produces: a `StreamingResponse` (with or
without a registered background cleanup task), a buffered JSON body,
or a raised `HTTPException`. -/
inductive ProxyResult
  | streaming (status : Nat) (backgroundCleanup : Bool)
  | jsonBody
  | httpError (status : Nat) (detail : String)
deriving DecidableEq, Repr

/-- Embeds `send_post_request` (lines 101-184) as its control-flow
skeleton, also counting the synchronous `cleanup_response(r, session)`
invocations (second component).  Branches, with source lines:
the `r.ok is False` block (141-154) parses the body, calls
`cleanup_response` and raises when an `"error"` field is present; an
unparseable body skips the cleanup call and raises the generic
connection error; a parseable body without `"error"` falls through to
`r.raise_for_status()` (156) whose exception lands in the outer
handler (176-181); the streaming success path (157-169) registers
`cleanup_response` as a `BackgroundTask`; the buffered path and every
raise pass through `finally` (182-184), which calls `cleanup_response`
only when `stream` is false.  Exception texts that are interpolated
from exception objects are abstracted to fixed strings. -/
def send_post_request (stream : Bool) (o : UpstreamOutcome) : ProxyResult × Nat :=
  if o.postRaises then
    -- outer except: r is None, so status 500; finally runs next
    (.httpError 500 "Docker Model Runner: connection error", if stream then 0 else 1)
  else if !o.ok then
    if o.bodyParses then
      if o.hasErrorField then
        -- cleanup, then HTTPException(r.status, res["error"]); finally
        (.httpError o.status o.errorMsg, (if stream then 0 else 1) + 1)
      else
        -- cleanup, then raise_for_status() raises into the outer handler; finally
        (.httpError o.status "Docker Model Runner: response status error",
          (if stream then 0 else 1) + 1)
    else
      -- r.json() raised before the cleanup call; generic error; finally
      (.httpError o.status "Open WebUI: Server Connection Error", if stream then 0 else 1)
  else
    if stream then
      -- StreamingResponse with cleanup_response bound as BackgroundTask
      (.streaming o.status true, 0)
    else
      if o.bodyParses then
        (.jsonBody, 1)
      else
        -- await r.json() raised on the success path; outer handler; finally
        (.httpError o.status "Docker Model Runner: json decode error", 1)

/-- Total number of times the upstream response and session are
released for one call: the synchronous `cleanup_response` invocations
plus the background task, which Starlette runs exactly once when the
client stream ends, whether fully consumed or abandoned by a client
disconnect. -/
def releases (pr : ProxyResult × Nat) : Nat :=
  pr.2 +
    match pr.1 with
    | .streaming _ bg => if bg then 1 else 0
    | _ => 0

/-- A Python value as seen in the pydantic `values` dict handed to a
field validator: `None`, a string, or a list (abstracted to its
length). -/
inductive PyValue
  | pyNone
  | pyStr (s : String)
  | pyList (len : Nat)
deriving DecidableEq, Repr

/-- Embeds `ChatMessage.check_at_least_one_field` (lines 620-629), the
`@validator("content", pre=True)` body: reject when the supplied
content value is `None` and `values` has no `tool_calls` entry or a
`None` one; `values` holds the previously validated fields. -/
def check_at_least_one_field (field_value : Option String)
    (values : List (String × PyValue)) : Except String (Option String) :=
  if field_value = none ∧
      (assocGet values "tool_calls" = none ∨ assocGet values "tool_calls" = some .pyNone) then
    .error "At least one of \x27content\x27 or \x27tool_calls\x27 must be provided"
  else
    .ok field_value

/-- A raw inbound chat message, before validation: which optional
fields were supplied, and their values (`none` is a JSON `null`; a
tool-call list is abstracted to its length). -/
structure RawChatMessage where
  role : String
  contentProvided : Bool := false
  content : Option String := none
  toolCallsProvided : Bool := false
  tool_calls : Option Nat := none
deriving DecidableEq, Repr

/-- A validated `ChatMessage` (lines 614-618; `images` is irrelevant
to validation and omitted). -/
structure ChatMessage where
  role : String
  content : Option String
  tool_calls : Option Nat
deriving DecidableEq, Repr

/-- Embeds pydantic validation of `ChatMessage` (lines 614-629).
Pydantic validates fields in declaration order: `role`, `content`,
`tool_calls`, `images`; when the `content` validator runs, `values`
therefore contains only the already-validated `role`, never
`tool_calls`.  A non-`always` validator is skipped when the field is
not supplied at all (the declared default is used directly). -/
def validate_chat_message (raw : RawChatMessage) : Except String ChatMessage :=
  let values : List (String × PyValue) := [("role", .pyStr raw.role)]
  let contentStep : Except String (Option String) :=
    if raw.contentProvided then check_at_least_one_field raw.content values
    else .ok none
  match contentStep with
  | .error e => .error e
  | .ok c =>
    .ok { role := raw.role, content := c,
          tool_calls := if raw.toolCallsProvided then raw.tool_calls else none }

/-- Embeds the validation step of `generate_chat_completion` (lines
669-674): a failed `GenerateChatCompletionForm(**form_data)` is
re-raised as an `HTTPException` with status 400 and the validation
message as detail. -/
def validate_chat_messages (msgs : List RawChatMessage) :
    Except (Nat × String) (List ChatMessage) :=
  match msgs.mapM validate_chat_message with
  | .error e => .error (400, e)
  | .ok out => .ok out

/-- Embeds the config-pruning step of `update_config` (lines 276-281):
`keys = list(map(str, range(len(BASE_URLS))))` and the retained config
mapping keeps exactly the entries whose key is in `keys`.  The
function is total: unknown keys are dropped, never reported. -/
def update_config_api_configs {α : Type} (base_urls : List String)
    (configs : List (String × α)) : List (String × α) :=
  let keys := (List.range base_urls.length).map (fun i => toString i)
  configs.filter (fun kv => keys.any (fun k => decide (k = kv.1)))

/-- The merge loop as a single fold over the visit stream; proof
support for characterizing `merge_models_lists`. -/
def runMerge (occs : List (Nat × MModel)) : List MModel :=
  occs.foldl (fun acc p => mergeStep acc p.1 p.2) []

/-- The canonical merged record set: for each name, the scalar fields
of its first occurrence with `urls` listing every occurrence index. -/
def mergedOfOccs (occs : List (Nat × MModel)) (n : String) : List MModel :=
  match occs.filter (fun p => decide (p.2.model = n)) with
  | [] => []
  | q :: qs => [{ q.2 with urls := ((q :: qs).map Prod.fst) }]

/-- Single-backend registry for the prefix round-trip scenarios. -/
def c4Urls : List String := ["http://b0"]

/-- Backend 0 configured with name prefix `teamA`. -/
def c4Configs : List (String × ApiConfig) := [("0", { prefix_id := some "teamA" })]

/-- Backend 0 exposes the tagless native name `llama3`. -/
def c4Net : Nat → Option RespObj :=
  fun i => if i = 0 then some { models := [{ model := "llama3" }] } else none

/-- Backend 0 exposes the tagged native name `llama3:latest`. -/
def c4NetTagged : Nat → Option RespObj :=
  fun i => if i = 0 then some { models := [{ model := "llama3:latest" }] } else none

/-- Three backends reporting the versions of the reconciliation
scenario. -/
def c5Net : Nat → Option String :=
  fun i => ["v1.2.0", "v1.10.0", "v1.2.5"].get? i

/-- Two-backend registry with backend 1 disabled. -/
def c7Urls : List String := ["u0", "u1"]

/-- Backend 1 disabled. -/
def c7Configs : List (String × ApiConfig) := [("1", { enable := false })]

/-- Every backend reachable. -/
def c7Net : Nat → Option RespObj := fun _ => some { models := [{ model := "m" }] }

/-- Backend 1 unreachable (differs from `c7Net` only at the disabled
index). -/
def c7NetB : Nat → Option RespObj :=
  fun i => if i = 0 then some { models := [{ model := "m" }] } else none

/-- Model lists where the name `m` is exposed by backends 0 and 2 and
backend 1 is a null slot. -/
def c10Lists : List (Option (List MModel)) :=
  [some [{ model := "m" }], none, some [{ model := "m" }]]

/-- The merged record for the name `m` in `c10Lists`. -/
def c10Rec : MModel := { model := "m", urls := [0, 2] }

theorem enumerateFrom_get? {α : Type} (l : List α) (i j : Nat) :
    (enumerateFrom i l).get? j = (l.get? j).map (fun a => (i + j, a)) := by
  induction l generalizing i j with
  | nil => simp [enumerateFrom]
  | cons a as ih =>
    cases j with
    | zero => simp [enumerateFrom]
    | succ j =>
      have harith : i + 1 + j = i + (j + 1) := by omega
      simp only [enumerateFrom, List.get?_cons_succ, ih (i + 1) j, harith]

theorem enumerate_get? {α : Type} (l : List α) (j : Nat) :
    (enumerate l).get? j = (l.get? j).map (fun a => (j, a)) := by
  simpa using enumerateFrom_get? l 0 j

theorem mem_enumerateFrom {α : Type} {p : Nat × α} {l : List α} {i : Nat} :
    p ∈ enumerateFrom i l ↔ i ≤ p.1 ∧ l.get? (p.1 - i) = some p.2 := by
  induction l generalizing i with
  | nil => simp [enumerateFrom]
  | cons a as ih =>
    simp only [enumerateFrom, List.mem_cons, ih]
    constructor
    · rintro (h | ⟨h1, h2⟩)
      · subst h
        simp
      · refine ⟨by omega, ?_⟩
        have : p.1 - i = (p.1 - (i + 1)) + 1 := by omega
        rw [this]
        simpa using h2
    · rintro ⟨h1, h2⟩
      rcases Nat.eq_or_lt_of_le h1 with h | h
      · left
        have h0 : p.1 - i = 0 := by omega
        rw [h0] at h2
        simp only [List.get?_cons_zero, Option.some.injEq] at h2
        obtain ⟨p1, p2⟩ := p
        simp only at h h2
        simp [← h, h2]
      · right
        refine ⟨by omega, ?_⟩
        have : p.1 - i = (p.1 - (i + 1)) + 1 := by omega
        rw [this] at h2
        simpa using h2

theorem mem_enumerate {α : Type} {p : Nat × α} {l : List α} :
    p ∈ enumerate l ↔ l.get? p.1 = some p.2 := by
  simp [enumerate, mem_enumerateFrom]

theorem foldl_flatMap {α β γ : Type} (l : List α) (f : α → List β)
    (g : γ → β → γ) (b : γ) :
    (l.flatMap f).foldl g b = l.foldl (fun acc a => (f a).foldl g acc) b := by
  induction l generalizing b with
  | nil => rfl
  | cons a as ih => simp [List.flatMap_cons, List.foldl_append, ih]

theorem merge_eq_runMerge (ls : List (Option (List MModel))) :
    merge_models_lists ls = runMerge (occList ls) := by
  unfold merge_models_lists runMerge occList
  rw [foldl_flatMap]
  congr 1
  funext acc p
  cases h : p.2 with
  | none => simp [h]
  | some ms => simp [h, List.foldl_map]

theorem filter_map_comm {α β : Type} (l : List α) (f : α → β) (p : β → Bool) :
    (l.map f).filter p = (l.filter (fun a => p (f a))).map f := by
  induction l with
  | nil => rfl
  | cons a as ih =>
    by_cases h : p (f a) = true
    · simp [h, ih]
    · simp only [Bool.not_eq_true] at h
      simp [h, ih]

theorem map_id_of {α : Type} (l : List α) (f : α → α) (h : ∀ a ∈ l, f a = a) :
    l.map f = l := by
  induction l with
  | nil => rfl
  | cons a as ih =>
    simp only [List.map_cons, h a (List.mem_cons_self a as),
      ih (fun x hx => h x (List.mem_cons_of_mem a hx))]

theorem runMerge_append (l : List (Nat × MModel)) (p : Nat × MModel) :
    runMerge (l ++ [p]) = mergeStep (runMerge l) p.1 p.2 := by
  unfold runMerge
  rw [List.foldl_append]
  rfl

/-- Characterization of the merge loop: for every model name, the
merged list holds exactly one record when the name occurs in the visit
stream (its scalar fields from the first occurrence, `urls` the list
of all occurrence indices, in order) and none otherwise. -/
theorem runMerge_filter (occs : List (Nat × MModel)) (n : String) :
    (runMerge occs).filter (fun r => decide (r.model = n)) = mergedOfOccs occs n := by
  induction occs using List.reverseRecOn generalizing n with
  | nil => rfl
  | append_singleton l p ih =>
    rw [runMerge_append, mergeStep]
    by_cases hseen : (runMerge l).any (fun r => decide (r.model = p.2.model)) = true
    · rw [if_pos hseen]
      obtain ⟨r0, hr0A, hr0m⟩ := List.any_eq_true.mp hseen
      have hr0 : r0 ∈ (runMerge l).filter (fun r => decide (r.model = p.2.model)) :=
        List.mem_filter.mpr ⟨hr0A, hr0m⟩
      cases hocc : l.filter (fun q => decide (q.2.model = p.2.model)) with
      | nil =>
        rw [ih p.2.model] at hr0
        unfold mergedOfOccs at hr0
        rw [hocc] at hr0
        simp at hr0
      | cons q qs =>
        have hAf : (runMerge l).filter (fun r => decide (r.model = p.2.model)) =
            [{ q.2 with urls := ((q :: qs).map Prod.fst) }] := by
          rw [ih p.2.model]
          unfold mergedOfOccs
          rw [hocc]
        have hqm : q.2.model = p.2.model := by
          have hq : q ∈ l.filter (fun q => decide (q.2.model = p.2.model)) := by
            rw [hocc]
            exact List.mem_cons_self _ _
          simpa using (List.mem_filter.mp hq).2
        rw [filter_map_comm]
        have hpred : ∀ r ∈ runMerge l,
            (decide ((if r.model = p.2.model then { r with urls := r.urls ++ [p.1] } else r).model = n))
              = decide (r.model = n) := by
          intro r _
          by_cases h : r.model = p.2.model <;> simp [h]
        rw [List.filter_congr hpred]
        by_cases hn : p.2.model = n
        · subst hn
          rw [hAf]
          unfold mergedOfOccs
          rw [List.filter_append, hocc]
          simp [hqm, List.map_append]
        · have hupd : ∀ r ∈ (runMerge l).filter (fun r => decide (r.model = n)),
              (if r.model = p.2.model then { r with urls := r.urls ++ [p.1] } else r) = r := by
            intro r hr
            have hrn : r.model = n := by simpa using (List.mem_filter.mp hr).2
            rw [if_neg]
            rw [hrn]
            intro hcontra
            exact hn hcontra.symm
          rw [map_id_of _ _ hupd, ih n]
          unfold mergedOfOccs
          rw [List.filter_append]
          simp [hn]
    · rw [if_neg hseen]
      simp only [List.any_eq_true, not_exists] at hseen
      have hforall : ∀ r ∈ runMerge l, ¬ ((fun r => decide (r.model = p.2.model)) r = true) := by
        intro r hr
        exact fun hc => hseen r ⟨hr, hc⟩
      have hAf : (runMerge l).filter (fun r => decide (r.model = p.2.model)) = [] :=
        List.filter_eq_nil_iff.mpr hforall
      have hocc : l.filter (fun q => decide (q.2.model = p.2.model)) = [] := by
        cases hocc0 : l.filter (fun q => decide (q.2.model = p.2.model)) with
        | nil => rfl
        | cons q qs =>
          rw [ih p.2.model] at hAf
          unfold mergedOfOccs at hAf
          rw [hocc0] at hAf
          simp at hAf
      rw [List.filter_append]
      by_cases hn : p.2.model = n
      · subst hn
        rw [hAf]
        unfold mergedOfOccs
        rw [List.filter_append, hocc]
        simp
      · rw [ih n]
        unfold mergedOfOccs
        rw [List.filter_append]
        simp [hn]

theorem merge_filter_eq (ls : List (Option (List MModel))) (n : String) :
    (merge_models_lists ls).filter (fun r => decide (r.model = n)) =
      mergedOfOccs (occList ls) n := by
  rw [merge_eq_runMerge, runMerge_filter]

theorem merge_mem_occs {ls : List (Option (List MModel))} {r : MModel}
    (hr : r ∈ merge_models_lists ls) :
    ∃ q qs, (occList ls).filter (fun p => decide (p.2.model = r.model)) = q :: qs ∧
      r = { q.2 with urls := ((q :: qs).map Prod.fst) } := by
  have hmem : r ∈ (merge_models_lists ls).filter (fun x => decide (x.model = r.model)) :=
    List.mem_filter.mpr ⟨hr, by simp⟩
  rw [merge_filter_eq] at hmem
  unfold mergedOfOccs at hmem
  cases hocc : (occList ls).filter (fun p => decide (p.2.model = r.model)) with
  | nil =>
    rw [hocc] at hmem
    simp at hmem
  | cons q qs =>
    rw [hocc] at hmem
    simp only [List.mem_singleton] at hmem
    exact ⟨q, qs, rfl, hmem⟩

theorem merge_self_filter {ls : List (Option (List MModel))} {r : MModel}
    (hr : r ∈ merge_models_lists ls) :
    (merge_models_lists ls).filter (fun x => decide (x.model = r.model)) = [r] := by
  obtain ⟨q, qs, hocc, hrq⟩ := merge_mem_occs hr
  rw [merge_filter_eq]
  unfold mergedOfOccs
  rw [hocc, hrq]

theorem mem_occList {ls : List (Option (List MModel))} {i : Nat} {m : MModel} :
    (i, m) ∈ occList ls ↔ ∃ ms, ls.get? i = some (some ms) ∧ m ∈ ms := by
  unfold occList
  rw [List.mem_flatMap]
  constructor
  · rintro ⟨p, hp, hm⟩
    have hget := mem_enumerate.mp hp
    cases h2 : p.2 with
    | none =>
      rw [h2] at hm
      simp at hm
    | some ms =>
      rw [h2] at hm
      simp only [List.mem_map, Prod.mk.injEq] at hm
      obtain ⟨m', hm', h1, hmm⟩ := hm
      refine ⟨ms, ?_, ?_⟩
      · rw [← h1, hget, h2]
      · rw [← hmm]; exact hm'
  · rintro ⟨ms, hget, hm⟩
    refine ⟨(i, some ms), mem_enumerate.mpr hget, ?_⟩
    simp only [List.mem_map]
    exact ⟨m, hm, rfl⟩

theorem tupLt_irrefl (a : List Nat) : tupLt a a = false := by
  induction a with
  | nil => rfl
  | cons x xs ih => simp [tupLt, ih]

theorem tupLt_trans {a b c : List Nat} (h1 : tupLt a b = true) (h2 : tupLt b c = true) :
    tupLt a c = true := by
  induction a generalizing b c with
  | nil =>
    cases c with
    | nil =>
      cases b with
      | nil => simp [tupLt] at h1
      | cons y ys => simp [tupLt] at h2
    | cons z zs => simp [tupLt]
  | cons x xs ih =>
    cases b with
    | nil => simp [tupLt] at h1
    | cons y ys =>
      cases c with
      | nil => simp [tupLt] at h2
      | cons z zs =>
        rcases Nat.lt_trichotomy x y with hxy | hxy | hxy
        · rcases Nat.lt_trichotomy y z with hyz | hyz | hyz
          · have hxz : x < z := by omega
            simp [tupLt, hxz]
          · have hxz : x < z := by omega
            simp [tupLt, hxz]
          · have hne : ¬ y < z := by omega
            simp [tupLt, hne, hyz] at h2
        · subst hxy
          rcases Nat.lt_trichotomy x z with hxz | hxz | hxz
          · simp [tupLt, hxz]
          · subst hxz
            simp only [tupLt, Nat.lt_irrefl, if_false] at h1 h2 ⊢
            exact ih h1 h2
          · have hne : ¬ x < z := by omega
            simp [tupLt, hne, hxz] at h2
        · have hne : ¬ x < y := by omega
          simp [tupLt, hne, hxy] at h1

theorem tupLt_total (a b : List Nat) (h1 : tupLt a b = false) (h2 : tupLt b a = false) :
    a = b := by
  induction a generalizing b with
  | nil =>
    cases b with
    | nil => rfl
    | cons y ys => simp [tupLt] at h1
  | cons x xs ih =>
    cases b with
    | nil => simp [tupLt] at h2
    | cons y ys =>
      rcases Nat.lt_trichotomy x y with hxy | hxy | hxy
      · simp [tupLt, hxy] at h1
      · subst hxy
        simp only [tupLt, Nat.lt_irrefl, if_false] at h1 h2
        rw [ih ys h1 h2]
      · simp [tupLt, hxy] at h2

theorem foldlMin_mem (xs : List (String × List Nat)) (m : String × List Nat) :
    xs.foldl (fun m y => if tupLt y.2 m.2 then y else m) m = m ∨
      xs.foldl (fun m y => if tupLt y.2 m.2 then y else m) m ∈ xs := by
  induction xs generalizing m with
  | nil => exact Or.inl rfl
  | cons z zs ih =>
    simp only [List.foldl_cons]
    rcases ih (if tupLt z.2 m.2 then z else m) with h | h
    · rw [h]
      by_cases hz : tupLt z.2 m.2 = true
      · rw [if_pos hz]
        exact Or.inr (List.mem_cons_self _ _)
      · rw [if_neg hz]
        exact Or.inl rfl
    · exact Or.inr (List.mem_cons_of_mem _ h)

theorem foldlMin_min (xs : List (String × List Nat)) (m : String × List Nat) :
    ∀ y, (y = m ∨ y ∈ xs) →
      tupLt y.2 (xs.foldl (fun m y => if tupLt y.2 m.2 then y else m) m).2 = false := by
  induction xs generalizing m with
  | nil =>
    intro y hy
    rcases hy with h | h
    · subst h
      exact tupLt_irrefl _
    · simp at h
  | cons z zs ih =>
    intro y hy
    simp only [List.foldl_cons]
    by_cases hz : tupLt z.2 m.2 = true
    · rw [if_pos hz]
      rcases hy with h | h
      · subst h
        have hzr : tupLt z.2 ((zs.foldl (fun m y => if tupLt y.2 m.2 then y else m) z)).2 = false :=
          ih z z (Or.inl rfl)
        by_contra hc
        rw [Bool.not_eq_false] at hc
        have htr := tupLt_trans hz hc
        rw [htr] at hzr
        exact Bool.noConfusion hzr
      · rcases List.mem_cons.mp h with h1 | h1
        · rw [h1]
          exact ih z z (Or.inl rfl)
        · exact ih z y (Or.inr h1)
    · rw [if_neg hz]
      rw [Bool.not_eq_true] at hz
      rcases hy with h | h
      · rw [h]
        exact ih m m (Or.inl rfl)
      · rcases List.mem_cons.mp h with h1 | h1
        · subst h1
          have hmr : tupLt m.2 ((zs.foldl (fun m y => if tupLt y.2 m.2 then y else m) m)).2 = false :=
            ih m m (Or.inl rfl)
          by_contra hc
          rw [Bool.not_eq_false] at hc
          by_cases hmz : tupLt m.2 y.2 = true
          · have htr := tupLt_trans hmz hc
            rw [htr] at hmr
            exact Bool.noConfusion hmr
          · rw [Bool.not_eq_true] at hmz
            have heq : m.2 = y.2 := tupLt_total m.2 y.2 hmz hz
            rw [← heq] at hc
            rw [hc] at hmr
            exact Bool.noConfusion hmr
        · exact ih m y (Or.inr h1)

theorem keyedVersions_some (l : List String) (h : ∀ s ∈ l, (versionKey s).isSome) :
    ∃ keyed, keyedVersions l = some keyed ∧ keyed.map Prod.fst = l ∧
      ∀ q ∈ keyed, versionKey q.1 = some q.2 := by
  induction l with
  | nil => exact ⟨[], rfl, rfl, by simp⟩
  | cons s rest ih =>
    obtain ⟨k, hk⟩ := Option.isSome_iff_exists.mp (h s (List.mem_cons_self _ _))
    obtain ⟨keyed, h1, h2, h3⟩ := ih (fun x hx => h x (List.mem_cons_of_mem _ hx))
    refine ⟨(s, k) :: keyed, ?_, ?_, ?_⟩
    · simp [keyedVersions, hk, h1]
    · simp [h2]
    · intro q hq
      rcases List.mem_cons.mp hq with h4 | h4
      · subst h4
        exact hk
      · exact h3 q h4

theorem assocGet_map_model (L : List MModel) (k : String) :
    assocGet (L.map (fun m => (m.model, m))) k = L.find? (fun m => decide (m.model = k)) := by
  induction L with
  | nil => rfl
  | cons m ms ih =>
    by_cases h : m.model = k
    · simp [assocGet, List.find?, h]
    · simp [assocGet, List.find?, h, ih]

theorem find?_of_filter_singleton {L : List MModel} {p : MModel → Bool} {r : MModel}
    (h : L.filter p = [r]) : L.find? p = some r := by
  induction L with
  | nil => simp at h
  | cons a as ih =>
    by_cases ha : p a = true
    · rw [List.filter_cons_of_pos ha] at h
      rw [List.cons.injEq] at h
      rw [List.find?_cons_of_pos as ha, h.1]
    · rw [List.filter_cons_of_neg (by simp [ha])] at h
      rw [List.find?_cons_of_neg as (by simp [ha])]
      exact ih h

theorem dictLookup_modelsIndex {M : List MModel} {r : MModel}
    (h : M.filter (fun m => decide (m.model = r.model)) = [r]) :
    dictLookup (modelsIndex M) r.model = some r := by
  unfold dictLookup modelsIndex
  rw [← List.map_reverse, assocGet_map_model]
  apply find?_of_filter_singleton
  rw [List.filter_reverse, h]
  rfl

theorem map_congr_mem {α β : Type} (l : List α) (f g : α → β)
    (h : ∀ a ∈ l, f a = g a) : l.map f = l.map g := by
  induction l with
  | nil => rfl
  | cons a as ih =>
    simp only [List.map_cons, h a (List.mem_cons_self a as),
      ih (fun x hx => h x (List.mem_cons_of_mem a hx))]

theorem str_append_assoc (a b c : String) : a ++ b ++ c = a ++ (b ++ c) := by
  cases a
  cases b
  cases c
  simp [String.ext_iff]

/-- C1: merging a sequence of per-backend model lists yields exactly
one record per post-transform model name; the first occurrence in
registry order contributes the scalar fields of the record, and every
later occurrence of the same name only appends its backend index to
the `urls` (served_by) list.  Stated as: the records of name `n` in
the merge are exactly one record built from the first occurrence with
`urls` the list of all occurrence indices in order when `n` occurs,
and none otherwise; the second conjunct instantiates the backend set
1-and-3 case, giving a single record with `urls = [1, 3]`. -/
theorem c1_merge_first_seen_cumulative_urls :
    (∀ (ls : List (Option (List MModel))) (n : String),
      (merge_models_lists ls).filter (fun r => decide (r.model = n)) =
        match (occList ls).filter (fun p => decide (p.2.model = n)) with
        | [] => []
        | q :: qs => [{ q.2 with urls := ((q :: qs).map Prod.fst) }]) ∧
    merge_models_lists [some [], some [{ model := "x" }], some [], some [{ model := "x" }]] =
      [{ model := "x", urls := [1, 3] }] := by
  constructor
  · intro ls n
    rw [merge_filter_eq]
    rfl
  · decide

/-- C2: the claimed exactly-once release of the upstream response and
session fails on the code.  A streamed POST whose upstream returns a
non-success status with an unparseable body performs zero
`cleanup_response` calls: the `await r.json()` failure jumps past the
cleanup call at line 144 and the `finally` block skips cleanup because
`stream` is true, so the connection and session leak.  A buffered POST
whose upstream error body parses releases twice (line 144 and the
`finally` block).  The streaming success path (covering full
consumption and client disconnect alike, via the background task)
releases exactly once, as does the buffered success path. -/
theorem c2_cleanup_release_counts :
    releases (send_post_request true
        { postRaises := false, status := 502, ok := false,
          bodyParses := false, hasErrorField := false, errorMsg := "" }) = 0 ∧
    releases (send_post_request false
        { postRaises := false, status := 502, ok := false,
          bodyParses := true, hasErrorField := true, errorMsg := "boom" }) = 2 ∧
    releases (send_post_request true
        { postRaises := false, status := 200, ok := true,
          bodyParses := true, hasErrorField := false, errorMsg := "" }) = 1 ∧
    releases (send_post_request false
        { postRaises := false, status := 200, ok := true,
          bodyParses := true, hasErrorField := false, errorMsg := "" }) = 1 := by
  decide

/-- C3: the claim that a message with null content and a non-null
tool-call list passes validation fails on the code.  Pydantic
validates fields in declaration order, so when the `content` validator
runs, `values` never contains `tool_calls`; every explicitly supplied
null content is rejected, contradicting the validator error message
itself.  First conjunct: the claim input with a tool-call list is
rejected; second: the input with both null is rejected (this half of
the claim holds); third: the rejection surfaces as a 400. -/
theorem c3_content_validator_rejects_both :
    validate_chat_message
        { role := "assistant", contentProvided := true, content := none,
          toolCallsProvided := true, tool_calls := some 1 } =
      .error "At least one of \x27content\x27 or \x27tool_calls\x27 must be provided" ∧
    validate_chat_message
        { role := "assistant", contentProvided := true, content := none,
          toolCallsProvided := true, tool_calls := none } =
      .error "At least one of \x27content\x27 or \x27tool_calls\x27 must be provided" ∧
    validate_chat_messages
        [{ role := "assistant", contentProvided := true, content := none,
           toolCallsProvided := true, tool_calls := some 1 }] =
      .error (400, "At least one of \x27content\x27 or \x27tool_calls\x27 must be provided") :=
  ⟨rfl, rfl, rfl⟩

/-- C4 counterexample: a backend with prefix `teamA` exposing `llama3`
contributes a merged record named `teamA.llama3` as claimed, but a
chat request for `teamA.llama3` is normalized to `teamA.llama3:latest`
before lookup and fails with NotFound (400) instead of resolving to
the backend; in particular nothing is forwarded with model `llama3`. -/
theorem c4_prefix_roundtrip_counterexample :
    (get_all_models true c4Urls c4Configs c4Net).map MModel.model = ["teamA.llama3"] ∧
    chat_route c4Urls c4Configs
        (modelsIndex (get_all_models true c4Urls c4Configs c4Net)) "teamA.llama3" none 0 =
      .httpError 400 (MODEL_NOT_FOUND "teamA.llama3:latest") ∧
    chat_route c4Urls c4Configs
        (modelsIndex (get_all_models true c4Urls c4Configs c4Net)) "teamA.llama3" none 0 ≠
      .forward "http://b0" 0 "llama3" := by
  decide

/-- C4 amended: the prefix contribution holds as claimed (`teamA`
plus `llama3` gives a record named `teamA.llama3`), but the resolve
half of the round trip only closes for tag-carrying native names,
because the gateway appends `:latest` to a tagless request name before
lookup: with the backend exposing `llama3:latest`, the merged record
is `teamA.llama3:latest`, and a chat request for `teamA.llama3`
resolves to that backend with the prefix stripped back off, so the
forwarded model field is the native name `llama3:latest`. -/
theorem c4_prefix_roundtrip_tagged :
    (get_all_models true c4Urls c4Configs c4Net).map MModel.model = ["teamA.llama3"] ∧
    (get_all_models true c4Urls c4Configs c4NetTagged).map MModel.model =
      ["teamA.llama3:latest"] ∧
    chat_route c4Urls c4Configs
        (modelsIndex (get_all_models true c4Urls c4Configs c4NetTagged)) "teamA.llama3" none 0 =
      .forward "http://b0" 0 "llama3:latest" := by
  decide

/-- C5: for every non-empty collection of reachable backend version
responses whose strings all parse, the unpinned version query returns
a version string that is one of the responses and whose integer
component tuple (leading `v` and pre-release suffix stripped, split on
`.`) is minimal under tuple comparison: no response parses to a
strictly smaller tuple. -/
theorem c5_lowest_version (base_urls : List String) (configs : List (String × ApiConfig))
    (net : Nat → Option String)
    (hne : versionResponses base_urls configs net ≠ [])
    (hkeys : ∀ s ∈ versionResponses base_urls configs net, (versionKey s).isSome) :
    ∃ best kbest,
      get_versions_unpinned true base_urls configs net = .version best ∧
      best ∈ versionResponses base_urls configs net ∧
      versionKey best = some kbest ∧
      ∀ s ∈ versionResponses base_urls configs net, ∀ ks,
        versionKey s = some ks → tupLt ks kbest = false := by
  obtain ⟨keyed, hkv, hmap, hprop⟩ := keyedVersions_some _ hkeys
  cases hk : keyed with
  | nil =>
    rw [hk] at hmap
    simp only [List.map_nil] at hmap
    exact absurd hmap.symm hne
  | cons x xs =>
    have hlen : 0 < (versionResponses base_urls configs net).length :=
      List.length_pos.mpr hne
    have hmin : pyMinByKey keyed =
        some (xs.foldl (fun m y => if tupLt y.2 m.2 then y else m) x) := by
      rw [hk]
      rfl
    refine ⟨(xs.foldl (fun m y => if tupLt y.2 m.2 then y else m) x).1,
      (xs.foldl (fun m y => if tupLt y.2 m.2 then y else m) x).2, ?_, ?_, ?_, ?_⟩
    · have hgv : get_versions_unpinned true base_urls configs net =
          (if 0 < (versionResponses base_urls configs net).length then
            match keyedVersions (versionResponses base_urls configs net) with
            | none => VersionResult.crash "ValueError: invalid literal for int()"
            | some keyed =>
              match pyMinByKey keyed with
              | some best => VersionResult.version best.1
              | none => VersionResult.crash "min() arg is an empty sequence"
          else VersionResult.httpError 500 "Docker Model Runner not found") := rfl
      rw [hgv, if_pos hlen, hkv]
      show (match pyMinByKey keyed with
        | some best => VersionResult.version best.1
        | none => VersionResult.crash "min() arg is an empty sequence") =
        VersionResult.version ((xs.foldl (fun m y => if tupLt y.2 m.2 then y else m) x)).1
      rw [hmin]
    · have hmem : (xs.foldl (fun m y => if tupLt y.2 m.2 then y else m) x) ∈ keyed := by
        rw [hk]
        rcases foldlMin_mem xs x with h | h
        · rw [h]
          exact List.mem_cons_self _ _
        · exact List.mem_cons_of_mem _ h
      rw [← hmap]
      exact List.mem_map_of_mem Prod.fst hmem
    · apply hprop
      rw [hk]
      rcases foldlMin_mem xs x with h | h
      · rw [h]
        exact List.mem_cons_self _ _
      · exact List.mem_cons_of_mem _ h
    · intro s hs ks hks
      rw [← hmap] at hs
      obtain ⟨q, hq, hq1⟩ := List.mem_map.mp hs
      have hqk : versionKey q.1 = some q.2 := hprop q hq
      rw [hq1, hks] at hqk
      have hks2 : ks = q.2 := by
        injection hqk
      rw [hks2]
      rw [hk] at hq
      exact foldlMin_min xs x q (List.mem_cons.mp hq)

/-- C5 witness: backends reporting v1.2.0, v1.10.0, v1.2.5 yield
v1.2.0, the component-wise minimum, not the lexicographically smallest
string. -/
theorem c5_lowest_version_witness :
    (∃ best kbest,
      get_versions_unpinned true ["u0", "u1", "u2"] [] c5Net = .version best ∧
      best ∈ versionResponses ["u0", "u1", "u2"] [] c5Net ∧
      versionKey best = some kbest ∧
      ∀ s ∈ versionResponses ["u0", "u1", "u2"] [] c5Net, ∀ ks,
        versionKey s = some ks → tupLt ks kbest = false) ∧
    get_versions_unpinned true ["u0", "u1", "u2"] [] c5Net = .version "v1.2.0" :=
  ⟨c5_lowest_version ["u0", "u1", "u2"] [] c5Net (by decide) (by decide), by decide⟩

/-- C6: an unpinned chat request whose (normalized) model name is
absent from the name index fails with the NotFound HTTPException
carrying status 400 and a detail naming the requested model (the
requested name is a literal substring of the detail), and the request
is never forwarded to any backend. -/
theorem c6_unknown_model_not_found (base_urls : List String)
    (configs : List (String × ApiConfig)) (models : List (String × MModel))
    (m : String) (pick : Nat)
    (h : dictLookup models (normalize_model_name m) = none) :
    chat_route base_urls configs models m none pick =
      .httpError 400 (MODEL_NOT_FOUND (normalize_model_name m)) ∧
    (∃ pre post, MODEL_NOT_FOUND (normalize_model_name m) = pre ++ m ++ post) ∧
    ∀ u i fm, chat_route base_urls configs models m none pick ≠ .forward u i fm := by
  have hroute : chat_route base_urls configs models m none pick =
      .httpError 400 (MODEL_NOT_FOUND (normalize_model_name m)) := by
    unfold chat_route get_runner_url
    dsimp only
    rw [h]
  refine ⟨hroute, ?_, ?_⟩
  · unfold normalize_model_name MODEL_NOT_FOUND
    by_cases hc : m.data.contains ':' = true
    · rw [if_pos hc]
      exact ⟨"Model \x27", "\x27 was not found", rfl⟩
    · rw [if_neg hc]
      refine ⟨"Model \x27", ":latest" ++ "\x27 was not found", ?_⟩
      simp [str_append_assoc]
  · intro u i fm hcontra
    rw [hroute] at hcontra
    exact ChatRouteResult.noConfusion hcontra

/-- C6 witness: requesting `gpt` against an empty catalog index fails
with the 400 NotFound naming `gpt:latest`. -/
theorem c6_unknown_model_not_found_witness :
    chat_route [] [] [] "gpt" none 0 =
      .httpError 400 (MODEL_NOT_FOUND (normalize_model_name "gpt")) :=
  (c6_unknown_model_not_found [] [] [] "gpt" 0 rfl).1

theorem tagSlots_get? (base_urls : List String) (configs : List (String × ApiConfig))
    (net : Nat → Option RespObj) (i : Nat) :
    (tagSlots base_urls configs net).get? i =
      (base_urls.get? i).map (fun u =>
        if (getApiConfig configs i u).enable then
          (net i).map (fun r => transformModels (getApiConfig configs i u) r.models)
        else none) := by
  unfold tagSlots
  rw [List.get?_eq_getElem?, List.getElem?_map, ← List.get?_eq_getElem?, enumerate_get?]
  cases base_urls.get? i <;> simp

/-- C7: catalog refresh under disabled or unreachable backends.
First conjunct: no fetch is issued to a disabled backend — the catalog
depends only on the network behavior at enabled indices (two networks
agreeing on every enabled index produce identical catalogs).  Second:
every merged record `urls` (served_by) entry is an index of an enabled
backend whose fetch returned a non-null response.  Third: no error is
surfaced — the refresh is total and every model of every successful
enabled backend still appears in the merged catalog. -/
theorem c7_refresh_partial_failure (base_urls : List String)
    (configs : List (String × ApiConfig)) (net net2 : Nat → Option RespObj) :
    ((∀ p ∈ enumerate base_urls, (getApiConfig configs p.1 p.2).enable = true →
        net p.1 = net2 p.1) →
      get_all_models true base_urls configs net = get_all_models true base_urls configs net2) ∧
    (∀ rec ∈ get_all_models true base_urls configs net, ∀ i ∈ rec.urls,
      ∃ u, base_urls.get? i = some u ∧ (getApiConfig configs i u).enable = true ∧
        (net i).isSome = true) ∧
    (∀ p ∈ enumerate base_urls, (getApiConfig configs p.1 p.2).enable = true →
      ∀ r, net p.1 = some r →
        ∀ m ∈ transformModels (getApiConfig configs p.1 p.2) r.models,
          ∃ rec, rec ∈ get_all_models true base_urls configs net ∧ rec.model = m.model) := by
  have hM : ∀ (nf : Nat → Option RespObj),
      get_all_models true base_urls configs nf =
        merge_models_lists (tagSlots base_urls configs nf) :=
    fun _ => rfl
  refine ⟨?_, ?_, ?_⟩
  · intro hagree
    rw [hM net, hM net2]
    congr 1
    unfold tagSlots
    apply map_congr_mem
    intro p hp
    by_cases he : (getApiConfig configs p.1 p.2).enable = true
    · simp only [he, if_true, hagree p hp he]
    · simp [he]
  · intro rec hrec i hi
    rw [hM net] at hrec
    obtain ⟨q, qs, hocc, hrq⟩ := merge_mem_occs hrec
    have hiurls : i ∈ (q :: qs).map Prod.fst := by
      have hi2 := hi
      rw [hrq] at hi2
      simpa using hi2
    obtain ⟨q2, hq2mem, hq2i⟩ := List.mem_map.mp hiurls
    have hq2occ : q2 ∈ occList (tagSlots base_urls configs net) := by
      have hq2f : q2 ∈ (occList (tagSlots base_urls configs net)).filter
          (fun p => decide (p.2.model = rec.model)) := by
        rw [hocc]
        exact hq2mem
      exact List.mem_of_mem_filter hq2f
    have hq2pair : (i, q2.2) ∈ occList (tagSlots base_urls configs net) := by
      rw [← hq2i]
      exact hq2occ
    obtain ⟨ms, hslot, _⟩ := mem_occList.mp hq2pair
    rw [tagSlots_get?] at hslot
    cases hbu : base_urls.get? i with
    | none =>
      rw [hbu] at hslot
      simp at hslot
    | some u =>
      rw [hbu] at hslot
      have hslot2 : (if (getApiConfig configs i u).enable then
          (net i).map (fun r => transformModels (getApiConfig configs i u) r.models)
        else none) = some ms := by
        simpa using hslot
      by_cases he : (getApiConfig configs i u).enable = true
      · rw [if_pos he] at hslot2
        refine ⟨u, rfl, he, ?_⟩
        cases hnet : net i with
        | none =>
          rw [hnet] at hslot2
          simp at hslot2
        | some rr => simp [hnet]
      · rw [if_neg he] at hslot2
        exact absurd hslot2 (by simp)
  · intro p hp he r hr m hm
    have hbu : base_urls.get? p.1 = some p.2 := mem_enumerate.mp hp
    have hslot : (tagSlots base_urls configs net).get? p.1 =
        some (some (transformModels (getApiConfig configs p.1 p.2) r.models)) := by
      rw [tagSlots_get?, hbu]
      simp [he, hr]
    have hoccm : (p.1, m) ∈ occList (tagSlots base_urls configs net) :=
      mem_occList.mpr ⟨_, hslot, hm⟩
    have hoccf : (p.1, m) ∈ (occList (tagSlots base_urls configs net)).filter
        (fun q => decide (q.2.model = m.model)) :=
      List.mem_filter.mpr ⟨hoccm, by simp⟩
    cases hocc : (occList (tagSlots base_urls configs net)).filter
        (fun q => decide (q.2.model = m.model)) with
    | nil =>
      rw [hocc] at hoccf
      simp at hoccf
    | cons q qs =>
      have hfil := merge_filter_eq (tagSlots base_urls configs net) m.model
      unfold mergedOfOccs at hfil
      rw [hocc] at hfil
      have hqm : q.2.model = m.model := by
        have hq : q ∈ (occList (tagSlots base_urls configs net)).filter
            (fun q => decide (q.2.model = m.model)) := by
          rw [hocc]
          exact List.mem_cons_self _ _
        simpa using (List.mem_filter.mp hq).2
      refine ⟨{ q.2 with urls := ((q :: qs).map Prod.fst) }, ?_, hqm⟩
      rw [hM net]
      apply List.mem_of_mem_filter (p := fun x => decide (x.model = m.model))
      rw [hfil]
      exact List.mem_singleton.mpr rfl

/-- C7 witness: two backends with backend 1 disabled; the catalog is
identical whether backend 1 is reachable or not (no fetch hits it),
and the served_by entry 0 of the merged record references the enabled,
responding backend 0. -/
theorem c7_refresh_partial_failure_witness :
    (get_all_models true c7Urls c7Configs c7Net =
      get_all_models true c7Urls c7Configs c7NetB) ∧
    (∃ u, c7Urls.get? 0 = some u ∧ (getApiConfig c7Configs 0 u).enable = true ∧
      (c7Net 0).isSome = true) :=
  ⟨(c7_refresh_partial_failure c7Urls c7Configs c7Net c7NetB).1 (by decide),
   (c7_refresh_partial_failure c7Urls c7Configs c7Net c7NetB).2.1
      { model := "m", urls := [0], tags := [], connection_type := some "docker", data := [] }
      (by decide) 0 (by decide)⟩

/-- C8: updating the registry never raises for unknown config keys
(the embedded update is a total filter); afterwards the retained
mapping contains exactly the original entries whose key is the decimal
string of a valid index for the new URL list, and every other entry,
including indices beyond the new length, is silently pruned. -/
theorem c8_update_config_prunes {α : Type} (base_urls : List String)
    (configs : List (String × α)) (kv : String × α) :
    kv ∈ update_config_api_configs base_urls configs ↔
      kv ∈ configs ∧ ∃ i, i < base_urls.length ∧ kv.1 = toString i := by
  unfold update_config_api_configs
  rw [List.mem_filter]
  constructor
  · rintro ⟨h1, h2⟩
    refine ⟨h1, ?_⟩
    simp only [List.any_eq_true, List.mem_map, List.mem_range] at h2
    obtain ⟨k, ⟨i, hi, hk⟩, hdec⟩ := h2
    have hkk : k = kv.1 := of_decide_eq_true hdec
    exact ⟨i, hi, by rw [← hkk, ← hk]⟩
  · rintro ⟨h1, i, hi, hk⟩
    refine ⟨h1, ?_⟩
    simp only [List.any_eq_true, List.mem_map, List.mem_range]
    exact ⟨toString i, ⟨i, hi, rfl⟩, by simp [hk]⟩

/-- C9: when every enabled backend version fetch yields null, the
unpinned version query raises the ServiceUnavailable HTTPException
with status 500 rather than returning a version. -/
theorem c9_all_unreachable_500 (base_urls : List String)
    (configs : List (String × ApiConfig)) (net : Nat → Option String)
    (h : ∀ p ∈ enumerate base_urls, (getApiConfig configs p.1 p.2).enable = true →
      net p.1 = none) :
    get_versions_unpinned true base_urls configs net =
      .httpError 500 "Docker Model Runner not found" := by
  have hresp : versionResponses base_urls configs net = [] := by
    unfold versionResponses
    rw [List.filterMap_eq_nil_iff]
    intro a ha
    obtain ⟨p, hp, hpa⟩ := List.mem_map.mp ha
    have hpf := List.mem_filter.mp hp
    have hnone := h p hpf.1 (by simpa using hpf.2)
    rw [← hpa, hnone]
    rfl
  simp [get_versions_unpinned, hresp]

/-- C9 witness: a single unreachable backend. -/
theorem c9_all_unreachable_500_witness :
    get_versions_unpinned true ["http://a"] [] (fun _ => none) =
      .httpError 500 "Docker Model Runner not found" :=
  c9_all_unreachable_500 ["http://a"] [] (fun _ => none) (fun _ _ _ => rfl)

/-- C10: every merged catalog record has a non-empty `urls` list whose
elements are indices of backends that contributed the record name, so
the unpinned random selection over such a record is total (never hits
the empty-sequence error) and always returns an index from the record
own served_by set. -/
theorem c10_selection_total (ls : List (Option (List MModel))) (base_urls : List String)
    (r : MModel) (pick : Nat) (hr : r ∈ merge_models_lists ls)
    (hlen : ls.length ≤ base_urls.length) :
    r.urls ≠ [] ∧
    (∀ i ∈ r.urls, ∃ m, (i, m) ∈ occList ls ∧ m.model = r.model) ∧
    (∃ u i, get_runner_url base_urls (modelsIndex (merge_models_lists ls)) r.model none pick =
        .ok u i ∧ i ∈ r.urls) := by
  obtain ⟨q, qs, hocc, hrq⟩ := merge_mem_occs hr
  have hurls : r.urls = (q :: qs).map Prod.fst := by
    rw [hrq]
  have hne : r.urls ≠ [] := by
    rw [hurls]
    simp
  have hcontrib : ∀ i ∈ r.urls, ∃ m, (i, m) ∈ occList ls ∧ m.model = r.model := by
    intro i hi
    rw [hurls] at hi
    obtain ⟨q2, hq2mem, hq2i⟩ := List.mem_map.mp hi
    have hq2f : q2 ∈ (occList ls).filter (fun p => decide (p.2.model = r.model)) := by
      rw [hocc]
      exact hq2mem
    refine ⟨q2.2, ?_, ?_⟩
    · have hq2occ := List.mem_of_mem_filter hq2f
      rw [← hq2i]
      exact hq2occ
    · simpa using (List.mem_filter.mp hq2f).2
  refine ⟨hne, hcontrib, ?_⟩
  have hlookup : dictLookup (modelsIndex (merge_models_lists ls)) r.model = some r :=
    dictLookup_modelsIndex (merge_self_filter hr)
  have hpos : 0 < r.urls.length := List.length_pos.mpr hne
  have hmod : pick % r.urls.length < r.urls.length := Nat.mod_lt _ hpos
  have hget : r.urls.get? (pick % r.urls.length) =
      some (r.urls.get ⟨pick % r.urls.length, hmod⟩) := List.get?_eq_get hmod
  have himem : r.urls.get ⟨pick % r.urls.length, hmod⟩ ∈ r.urls := List.get_mem _ _ _
  obtain ⟨mi, hmiocc, _⟩ := hcontrib _ himem
  obtain ⟨ms, hslotget, _⟩ := mem_occList.mp hmiocc
  have hilt : r.urls.get ⟨pick % r.urls.length, hmod⟩ < ls.length := by
    rcases List.get?_eq_some.mp hslotget with ⟨hh, _⟩
    exact hh
  have hiltb : r.urls.get ⟨pick % r.urls.length, hmod⟩ < base_urls.length :=
    lt_of_lt_of_le hilt hlen
  have hbu : base_urls.get? (r.urls.get ⟨pick % r.urls.length, hmod⟩) =
      some (base_urls.get ⟨r.urls.get ⟨pick % r.urls.length, hmod⟩, hiltb⟩) :=
    List.get?_eq_get hiltb
  refine ⟨base_urls.get ⟨r.urls.get ⟨pick % r.urls.length, hmod⟩, hiltb⟩,
    r.urls.get ⟨pick % r.urls.length, hmod⟩, ?_, himem⟩
  simp only [get_runner_url, hlookup, hget, hbu]

/-- C10 witness: the record for name `m`, served by backends 0 and 2
(backend 1 a null slot); a pick of 5 selects entry 5 mod 2 = 1 of the
urls list, index 2, which is in served_by. -/
theorem c10_selection_total_witness :
    c10Rec.urls ≠ [] ∧
    (∀ i ∈ c10Rec.urls, ∃ m, (i, m) ∈ occList c10Lists ∧ m.model = c10Rec.model) ∧
    (∃ u i, get_runner_url ["u0", "u1", "u2"] (modelsIndex (merge_models_lists c10Lists))
        c10Rec.model none 5 = .ok u i ∧ i ∈ c10Rec.urls) :=
  c10_selection_total c10Lists ["u0", "u1", "u2"] c10Rec 5 (by decide) (by decide)
